import Mathlib

/-
Shallow embedding of src/Tarea2/src/GeneticAlgorithm.py.

Conventions used throughout:
* an Individual is a `List α` of genes (the gene type `α` is opaque to the engine);
* fitness values are integers (`Int`); averages are rationals (`Rat`);
* the numpy random draws are explicit inputs: `np.random.randint(lo, hi)` becomes an
  input value together with the guard `lo < hi` (numpy raises `ValueError` when the
  range is empty) and the constraint that the value lies in `[lo, hi)`;
  `np.random.random() < 0.5` becomes a `Bool` input; the per-gene mutation draws
  `np.random.random()` become a stream `Nat → Rat` of values in `[0, 1)`;
* a Python run that raises (ValueError from an empty randint range, TypeError from
  indexing with `None`, IndexError from an out-of-range index) is modelled as `none`.
-/

/-- Sequences a list of options: `some` of the list of values when every entry is
`some`, `none` as soon as one entry is `none` (a raised exception aborts the list
comprehension in `__reproduce`). -/
def seqOpt {β : Type} : List (Option β) → Option (List β)
  | [] => some []
  | none :: _ => none
  | some x :: rest => (seqOpt rest).map (fun l => x :: l)

/-- Sum of absolute values of a fitness vector, the quantity the roulette walk
accumulates (`total += abs(self.__population_fitness[index])`). -/
def sumAbs (fits : List Int) : Int :=
  fits.foldl (fun a f => a + |f|) 0

/-- The roulette walk of `__produce_offspring` (lines 112-122), on the zipped list of
(individual, fitness) pairs.  State: `total` is the running sum of absolute fitness,
`p1`/`p2` the parent slots (`None` in Python = `none`).  Each iteration re-assigns a
slot whenever `total >= target` for that slot, and the loop breaks as soon as both
slots are set. -/
def rouletteGo {α : Type} (t1 t2 : Int) :
    List (α × Int) → Int → Option α → Option α → Option α × Option α
  | [], _, p1, p2 => (p1, p2)
  | (ind, f) :: rest, total, p1, p2 =>
    let total2 := total + |f|
    let p1b := if t1 ≤ total2 then some ind else p1
    let p2b := if t2 ≤ total2 then some ind else p2
    if p1b.isSome ∧ p2b.isSome then (p1b, p2b)
    else rouletteGo t1 t2 rest total2 p1b p2b

/-- Roulette parent selection: run the walk on the population with both drawn
targets, starting from zero accumulated fitness and both slots unset. -/
def rouletteSelect {α : Type} (pop : List α) (fits : List Int) (t1 t2 : Int) :
    Option α × Option α :=
  rouletteGo t1 t2 (pop.zip fits) 0 none none

/-- Modelled from the spec: the first individual in population order whose cumulative
sum of absolute fitness (starting from `total`) reaches or exceeds the target `t`
(the binding rule the spec asserts for each roulette slot). -/
def firstCrossGo {α : Type} (t : Int) : List (α × Int) → Int → Option α
  | [], _ => none
  | (ind, f) :: rest, total =>
    if t ≤ total + |f| then some ind else firstCrossGo t rest (total + |f|)

/-- Modelled from the spec: first individual whose cumulative absolute fitness
reaches or exceeds `t`, starting from zero. -/
def firstCrossing {α : Type} (pop : List α) (fits : List Int) (t : Int) : Option α :=
  firstCrossGo t (pop.zip fits) 0

/-- The tournament scan of `__produce_offspring` (lines 125-138): a left-to-right
scan of the 8 drawn indices keeping the running best index `m1` and runner-up index
`m2`.  Out-of-range indices never occur (numpy draws them in `[0, pop_size)`), so
fitness lookup is `getD _ 0`. -/
def tournGo (fits : List Int) : List Nat → Option Nat → Option Nat → Option Nat × Option Nat
  | [], m1, m2 => (m1, m2)
  | p :: rest, none, m2 => tournGo fits rest (some p) m2
  | p :: rest, some a, m2 =>
    if fits.getD a 0 < fits.getD p 0 then tournGo fits rest (some p) (some a)
    else
      match m2 with
      | none => tournGo fits rest (some a) (some p)
      | some b =>
        if fits.getD b 0 < fits.getD p 0 then tournGo fits rest (some a) (some p)
        else tournGo fits rest (some a) (some b)

/-- The final (best, runner-up) index pair of the tournament scan, both slots
starting unset. -/
def tournamentPair (fits : List Int) (draws : List Nat) : Option Nat × Option Nat :=
  tournGo fits draws none none

/-- Tournament parent selection: look the two final indices up in the population
(`self.__population[max_1]`, `self.__population[max_2]`); an unset slot (`None`
index) or an out-of-range index raises in Python, hence `none`. -/
def tournamentSelect {α : Type} (pop : List α) (fits : List Int) (draws : List Nat) :
    Option (α × α) :=
  match tournamentPair fits draws with
  | (some a, some b) =>
    match pop.get? a, pop.get? b with
    | some x, some y => some (x, y)
    | _, _ => none
  | _ => none

/-- Non-viable crossover (lines 145-152): `np.random.randint(1, len(parent_1)-1)`
raises unless `1 < len - 1`, i.e. unless the parent has length at least 3; the drawn
breakpoint `b` then lies in `[1, len-1)`.  `coin` models `np.random.random() < 0.5`:
`true` keeps parent 1's head. -/
def crossoverNV {α : Type} (p1 p2 : List α) (b : Nat) (coin : Bool) : Option (List α) :=
  if 3 ≤ p1.length ∧ 1 ≤ b ∧ b < p1.length - 1 then
    some (if coin then p1.take b ++ p2.drop b else p2.take b ++ p1.drop b)
  else none

/-- The mutation loop (lines 155-160): for each index `i` of the child in ascending
order, if the `i`-th uniform draw `r i` is below `rate`, replace gene `i` by
`stepG c i` where `c` is the current (partially mutated) child.  `stepG` is
`mutate(child[i])` in non-viable mode and `viable_mutation(child, i)` in viable
mode. -/
def mutationPass {α : Type} (rate : Rat) (r : Nat → Rat) (stepG : List α → Nat → α)
    (child : List α) : List α :=
  (List.range child.length).foldl
    (fun c i => if r i < rate then c.set i (stepG c i) else c) child

/-- Modelled from the spec: the mutation loop with the per-gene function applied at
every gene position (what a mutation rate of exactly 1.0 must produce). -/
def mutateEvery {α : Type} (stepG : List α → Nat → α) (child : List α) : List α :=
  (List.range child.length).foldl (fun c i => c.set i (stepG c i)) child

/-- The random draws consumed by one call of `__produce_offspring`: the two roulette
targets, the 8 tournament indices, the crossover breakpoint, the crossover coin, and
the stream of per-gene uniform mutation draws. -/
structure Draws where
  t1 : Int
  t2 : Int
  participants : List Nat
  breakpoint : Nat
  coin : Bool
  mutr : Nat → Rat

/-- The roulette arm of `__produce_offspring` (lines 108-122):
`np.random.randint(0, total_fitness, 2)` requires `0 < total` (else ValueError) and
yields two targets in `[0, total)`; then the roulette walk runs, and the two slots —
still `None` if the walk never bound them — are the parents (Python would raise on a
`None` parent only later, at crossover/`len`; reaching crossover with a `None`
parent raises, hence `none`). -/
def rouletteParents {α : Type} (pop : List α) (fits : List Int) (total : Int)
    (d : Draws) : Option (α × α) :=
  if 0 < total ∧ 0 ≤ d.t1 ∧ d.t1 < total ∧ 0 ≤ d.t2 ∧ d.t2 < total then
    match rouletteSelect pop fits d.t1 d.t2 with
    | (some p1, some p2) => some (p1, p2)
    | _ => none
  else none

/-- Parent selection of `__produce_offspring` (lines 108-140): the roulette arm is
taken exactly when `mode == 0 and self.__population_fitness[0] >= 0` (reading
`fits[0]` raises on an empty vector); every other case falls through to the
tournament arm. -/
def selectParents {α : Type} (pop : List α) (fits : List Int) (total : Int)
    (mode : Nat) (d : Draws) : Option (α × α) :=
  if mode = 0 then
    match fits.head? with
    | none => none
    | some f0 =>
      if 0 ≤ f0 then rouletteParents pop fits total d
      else tournamentSelect pop fits d.participants
  else tournamentSelect pop fits d.participants

/-- Selection followed by crossover (lines 108-152): in viable mode the child is
`viable_crossover(parent_1, parent_2)`, otherwise the breakpoint crossover. -/
def offspringCrossStage {α : Type} (viaCheck : Bool)
    (viaCross : List α → List α → List α) (pop : List (List α)) (fits : List Int)
    (total : Int) (mode : Nat) (d : Draws) : Option (List α) :=
  match selectParents pop fits total mode d with
  | none => none
  | some (p1, p2) =>
    if viaCheck then some (viaCross p1 p2) else crossoverNV p1 p2 d.breakpoint d.coin

/-- The per-gene replacement of the mutation loop: `viable_mutation(child, i)` in
viable mode, `mutate(child[i])` otherwise (`i` is always in range, so the `getD`
default is never consulted). -/
def mutStepG {α : Type} [Inhabited α] (viaCheck : Bool) (viaMut : List α → Nat → α)
    (mutateFn : α → α) : List α → Nat → α :=
  if viaCheck then viaMut else fun cc i => mutateFn (cc.getD i default)

/-- `__produce_offspring` (lines 98-162): selection, then crossover, then the
mutation pass over the child.  `viaCheck` is `self.__individual_viability_check`;
`viaCross`/`viaMut` are the caller-supplied viable strategies (only consulted when
`viaCheck` is true, mirroring the Python attribute lookups); `mutateFn` is the
non-viable per-gene `mutate`.  A raised exception anywhere is `none`. -/
def produceOffspring {α : Type} [Inhabited α] (viaCheck : Bool)
    (viaCross : List α → List α → List α) (viaMut : List α → Nat → α)
    (rate : Rat) (mutateFn : α → α) (pop : List (List α)) (fits : List Int)
    (total : Int) (mode : Nat) (d : Draws) : Option (List α) :=
  match offspringCrossStage viaCheck viaCross pop fits total mode d with
  | none => none
  | some c => some (mutationPass rate d.mutr (mutStepG viaCheck viaMut mutateFn) c)

/-- Modelled from the spec: the roulette pipeline on its own — roulette parent
selection followed by breakpoint crossover and the mutation pass (non-viable
mode). -/
def roulettePathNV {α : Type} [Inhabited α] (rate : Rat) (mutateFn : α → α)
    (pop : List (List α)) (fits : List Int) (total : Int) (d : Draws) :
    Option (List α) :=
  match rouletteParents pop fits total d with
  | none => none
  | some (p1, p2) =>
    match crossoverNV p1 p2 d.breakpoint d.coin with
    | none => none
    | some c =>
      some (mutationPass rate d.mutr (fun cc i => mutateFn (cc.getD i default)) c)

/-- Modelled from the spec: the tournament pipeline on its own — tournament parent
selection followed by breakpoint crossover and the mutation pass (non-viable
mode). -/
def tournamentPathNV {α : Type} [Inhabited α] (rate : Rat) (mutateFn : α → α)
    (pop : List (List α)) (fits : List Int) (d : Draws) : Option (List α) :=
  match tournamentSelect pop fits d.participants with
  | none => none
  | some (p1, p2) =>
    match crossoverNV p1 p2 d.breakpoint d.coin with
    | none => none
    | some c =>
      some (mutationPass rate d.mutr (fun cc i => mutateFn (cc.getD i default)) c)

/-- `np.sum` of the fitness vector, as computed at the top of `__reproduce`. -/
def sumFits (fits : List Int) : Int :=
  fits.foldl (fun a f => a + f) 0

/-- `__reproduce` (lines 164-169): compute `total_fitness`, produce `pop_size`
offspring — every call uses the default `mode=0` — and replace the population
wholesale.  `ds j` supplies the fresh random draws of the `j`-th offspring. -/
def reproduce {α : Type} [Inhabited α] (viaCheck : Bool)
    (viaCross : List α → List α → List α) (viaMut : List α → Nat → α)
    (rate : Rat) (mutateFn : α → α) (popSize : Nat) (pop : List (List α))
    (fits : List Int) (ds : Nat → Draws) : Option (List (List α)) :=
  seqOpt ((List.range popSize).map fun j =>
    produceOffspring viaCheck viaCross viaMut rate mutateFn pop fits (sumFits fits) 0 (ds j))

/-- The initial population (lines 79-84): call the factory once per slot,
`pop_size` times; `factory j` is the individual returned by the `j`-th call. -/
def initPopulation {α : Type} (factory : Nat → List α) (n : Nat) : List (List α) :=
  (List.range n).map factory

/-- The exception raised by the constructor when the viability bundle is incomplete
(`raise NotImplementedError("<capability>")`, lines 65-73; the spec calls it
ConfigurationError). -/
inductive ConfigError where
  | missing (capability : String)
deriving DecidableEq, Repr

/-- The constructor arguments that decide construction (lines 54-84): the optional
viability bundle is `Option`-valued (`None` in Python), gated by
`individual_viability_check`; the plain factory is always present. -/
structure GAConfig (α : Type) where
  popSize : Nat
  viabilityCheck : Bool
  viabilityCondition : Option (List α → Bool)
  viableMutation : Option (List α → Nat → α)
  viableCrossover : Option (List α → List α → List α)
  viableFactory : Option (Nat → List α)
  individualFactory : Nat → List α

/-- `__init__` (lines 54-86): when viability checking is on, each absent bundle
member raises, in declaration order, before any individual is created; on success
the initial population is built with the appropriate factory.  The result is the
constructed engine's initial population. -/
def mkEngine {α : Type} (cfg : GAConfig α) : Except ConfigError (List (List α)) :=
  if cfg.viabilityCheck then
    match cfg.viabilityCondition with
    | none => Except.error (ConfigError.missing "individual_viability_condition")
    | some _ =>
      match cfg.viableMutation with
      | none => Except.error (ConfigError.missing "viable_mutation")
      | some _ =>
        match cfg.viableCrossover with
        | none => Except.error (ConfigError.missing "viable_crossover")
        | some _ =>
          match cfg.viableFactory with
          | none => Except.error (ConfigError.missing "viable_individual_factory")
          | some vf => Except.ok (initPopulation vf cfg.popSize)
  else Except.ok (initPopulation cfg.individualFactory cfg.popSize)

/-- `np.max` of a fitness vector (the caller guarantees it is nonempty). -/
def listMax (l : List Int) : Int :=
  l.foldl max (l.headD 0)

/-- `np.min` of a fitness vector (the caller guarantees it is nonempty). -/
def listMin (l : List Int) : Int :=
  l.foldl min (l.headD 0)

/-- `np.average` of a fitness vector, as a rational. -/
def listAvg (l : List Int) : Rat :=
  (sumFits l : Rat) / (l.length : Rat)

/-- `np.argmax`: index of the first occurrence of the maximum.  Scan state: `i` is
the index of the next element, `bi`/`bv` the best index and value so far; a later
element replaces the best only when strictly greater. -/
def argmaxGo : List Int → Nat → Nat → Int → Nat
  | [], _, bi, _ => bi
  | x :: xs, i, bi, bv => if bv < x then argmaxGo xs (i + 1) i x else argmaxGo xs (i + 1) bi bv

/-- `np.argmax` of a fitness vector. -/
def argmaxIdx : List Int → Nat
  | [] => 0
  | x :: xs => argmaxGo xs 1 0 x

/-- The value returned by `simulate` (lines 231-236) extended with the stopping
generation and the number of `__reproduce` calls the run executed. -/
structure RunResult (α : Type) where
  best : List Int
  worst : List Int
  avg : List Rat
  historic : List (List α)
  stopGen : Nat
  reproCount : Nat

/-- The loop of `simulate` (lines 195-228).  `i` is the current generation number,
`fuel` the number of loop iterations left (`max_iter - i + 1`), `pop` the current
population.  Each iteration: evaluate the fitness vector, record the four metrics,
break if any fitness value satisfies the termination condition (`True in
map(termination_condition, fits)`), otherwise reproduce (`step i pop` is the
population `__reproduce` installs at generation `i`) and continue. -/
def simGo {α : Type} (fitF : List α → Int) (term : Int → Bool)
    (step : Nat → List (List α) → List (List α)) :
    Nat → Nat → List (List α) → RunResult α
  | i, 0, _ => ⟨[], [], [], [], i - 1, 0⟩
  | i, fuel + 1, pop =>
    let fits := pop.map fitF
    let b := listMax fits
    let w := listMin fits
    let a := listAvg fits
    let bi := pop.getD (argmaxIdx fits) []
    if fits.any term then ⟨[b], [w], [a], [bi], i, 0⟩
    else
      let r := simGo fitF term step (i + 1) fuel (step i pop)
      ⟨b :: r.best, w :: r.worst, a :: r.avg, bi :: r.historic, r.stopGen, r.reproCount + 1⟩

/-- `simulate` (lines 171-236): run the generation loop from generation 1 for at
most `maxIter` iterations.  (The verbose printing is an observational side effect
with no influence on the result and is not modelled.) -/
def simulate {α : Type} (fitF : List α → Int) (term : Int → Bool)
    (step : Nat → List (List α) → List (List α)) (maxIter : Nat)
    (pop : List (List α)) : RunResult α :=
  simGo fitF term step 1 maxIter pop

/-- The population at generation `n + 1` of a run that starts at `pop` and whose
generation-`i` reproduction installs `step i`: generation 1 is `pop` itself, and
the population of generation `n + 2` is `step (n + 1)` of generation `n + 1`. -/
def popAtGen {α : Type} (step : Nat → List (List α) → List (List α))
    (pop : List (List α)) : Nat → List (List α)
  | 0 => pop
  | n + 1 => step (n + 1) (popAtGen step pop n)

/-- Whether any fitness value of `pop` satisfies the termination condition: the
`True in map(termination_condition, fits)` test of line 223-225. -/
def anyTerm {α : Type} (fitF : List α → Int) (term : Int → Bool)
    (pop : List (List α)) : Bool :=
  (pop.map fitF).any term

/-- Modelled from the spec: the claim that some population and some sequence of 8
valid tournament draws leave the runner-up parent slot unset after the scan. -/
def tournamentRunnerUpCanBeNone : Prop :=
  ∃ (fits : List Int) (draws : List Nat),
    1 ≤ fits.length ∧ draws.length = 8 ∧ (∀ d ∈ draws, d < fits.length) ∧
    (tournamentPair fits draws).2 = none

/-- Modelled from the spec: the claim that the non-viable crossover of a pair of
parents can produce a child — that some producible draw (breakpoint and coin)
yields one. -/
def crossoverProducesChild (p1 p2 : List Nat) : Prop :=
  ∃ (b : Nat) (coin : Bool), (crossoverNV p1 p2 b coin).isSome = true

/-- Sum of absolute values of the fitness components of a zipped
(individual, fitness) list, by structural recursion (proof-friendly form of the
quantity the roulette walk accumulates). -/
def sumAbsPairs {α : Type} : List (α × Int) → Int
  | [] => 0
  | p :: rest => |p.2| + sumAbsPairs rest

/-- Structural-recursion form of `sumAbs`. -/
def sumAbsR : List Int → Int
  | [] => 0
  | f :: rest => |f| + sumAbsR rest

/-- The population `j` relative loop iterations after entering the `simulate` loop
at generation `i` with population `pop` (proof-friendly companion of
`popAtGen`, peeling the first reproduction instead of the last). -/
def popRel {α : Type} (step : Nat → List (List α) → List (List α)) :
    Nat → List (List α) → Nat → List (List α)
  | _, pop, 0 => pop
  | i, pop, j + 1 => popRel step (i + 1) (step i pop) j

/-- Modelled from the spec: the given capability name denotes one of the four
viability-bundle members and that member is absent from the configuration (what it
means for a ConfigurationError to correctly name a missing capability). -/
def capabilityAbsent {α : Type} (cfg : GAConfig α) (name : String) : Prop :=
  (name = "individual_viability_condition" ∧ cfg.viabilityCondition = none)
  ∨ (name = "viable_mutation" ∧ cfg.viableMutation = none)
  ∨ (name = "viable_crossover" ∧ cfg.viableCrossover = none)
  ∨ (name = "viable_individual_factory" ∧ cfg.viableFactory = none)

/-- C8 counterexample: for the length-2 parent pair `[1, 2]`, `[3, 4]` the claimed
breakpoint range `[1, len-1) = [1, 1)` is empty — `np.random.randint(1, 1)` raises —
so no draw can make non-viable crossover produce a child, contradicting the claim
that parents of length 2 are supported. -/
theorem crossoverNV_len2_no_child : ¬ crossoverProducesChild [1, 2] [3, 4] := by
  rintro ⟨b, coin, h⟩
  simp [crossoverProducesChild, crossoverNV] at h

/-- C8 amended: for every pair of equal-length parents of length at least 3 and
every producible breakpoint draw `b ∈ [1, len-1)`, non-viable crossover returns
`parent1[0:b] + parent2[b:]` when the coin draw falls below 0.5 and
`parent2[0:b] + parent1[b:]` otherwise, and the child's length equals the parents'
length.  (For parents of length 2 the breakpoint range is empty and the draw
raises.) -/
theorem crossoverNV_spec {α : Type} (p1 p2 : List α) (b : Nat) (coin : Bool)
    (hlen : p2.length = p1.length) (h3 : 3 ≤ p1.length)
    (hb1 : 1 ≤ b) (hb2 : b < p1.length - 1) :
    crossoverNV p1 p2 b coin
        = some (if coin then p1.take b ++ p2.drop b else p2.take b ++ p1.drop b)
      ∧ (if coin then p1.take b ++ p2.drop b else p2.take b ++ p1.drop b).length
          = p1.length := by
  refine ⟨?_, ?_⟩
  · unfold crossoverNV
    rw [if_pos ⟨h3, hb1, hb2⟩]
  · cases coin <;> simp [hlen] <;> omega

/-- C8 witness: the amended statement applied at `[1,2,3,4]`, `[5,6,7,8]` with
breakpoint 2 and coin below 0.5. -/
theorem crossoverNV_spec_witness :
    crossoverNV [1, 2, 3, 4] [5, 6, 7, 8] 2 true
        = some (if true then [1, 2, 3, 4].take 2 ++ [5, 6, 7, 8].drop 2
                else [5, 6, 7, 8].take 2 ++ [1, 2, 3, 4].drop 2)
      ∧ (if true then [1, 2, 3, 4].take 2 ++ [5, 6, 7, 8].drop 2
          else [5, 6, 7, 8].take 2 ++ [1, 2, 3, 4].drop 2).length
          = [1, 2, 3, 4].length :=
  crossoverNV_spec [1, 2, 3, 4] [5, 6, 7, 8] 2 true rfl (by decide) (by decide)
    (by decide)

/-- C10 counterexample: population of two individuals with fitness vector `[0, 0]`
(total fitness 0), roulette reached (mode 0, first fitness non-negative): offspring
production aborts — `np.random.randint(0, 0, 2)` raises — instead of applying any
fallback parent choice. -/
theorem produceOffspring_zero_total_none :
    produceOffspring false (fun p _ => p) (fun _ _ => 0) 0 (fun g => g)
      [[1, 2, 3], [4, 5, 6]] [0, 0] 0 0
      ⟨0, 0, [0, 0, 0, 0, 0, 0, 0, 0], 1, true, fun _ => 0⟩ = none := by rfl

/-- C10 amended: whenever roulette selection is reached (mode 0, first fitness
value non-negative) and the generation's total fitness is not positive, the
`randint(0, total_fitness)` range is empty, the draw raises, and offspring
production yields nothing — there is no fallback parent choice. -/
theorem produceOffspring_zero_total {α : Type} [Inhabited α] (viaCheck : Bool)
    (viaCross : List α → List α → List α) (viaMut : List α → Nat → α)
    (rate : Rat) (mutateFn : α → α) (pop : List (List α)) (f0 : Int)
    (rest : List Int) (total : Int) (d : Draws)
    (h0 : 0 ≤ f0) (ht : total ≤ 0) :
    produceOffspring viaCheck viaCross viaMut rate mutateFn pop (f0 :: rest) total 0 d
      = none := by
  have hr : rouletteParents pop (f0 :: rest) total d = none := by
    unfold rouletteParents
    rw [if_neg]
    rintro ⟨h, -⟩
    omega
  unfold produceOffspring offspringCrossStage selectParents
  simp [h0, hr]

/-- C10 witness: the amended statement applied at fitness vector `[0, -2]`
(total fitness `-2`), mode 0. -/
theorem produceOffspring_zero_total_witness :
    produceOffspring false (fun (p : List Nat) _ => p) (fun _ _ => 0) 0
      (fun g => g) [[1, 2, 3], [4, 5, 6]] ((0 : Int) :: [-2]) (-2) 0
      ⟨0, 0, [0, 0, 0, 0, 0, 0, 0, 0], 1, true, fun _ => 0⟩ = none :=
  produceOffspring_zero_total false (fun p _ => p) (fun _ _ => 0) 0 (fun g => g)
    [[1, 2, 3], [4, 5, 6]] 0 [-2] (-2)
    ⟨0, 0, [0, 0, 0, 0, 0, 0, 0, 0], 1, true, fun _ => 0⟩ (by decide) (by decide)

theorem foldl_addAbs (fits : List Int) :
    ∀ a : Int, fits.foldl (fun x f => x + |f|) a = a + sumAbsR fits := by
  induction fits with
  | nil => intro a; simp [sumAbsR]
  | cons f tl ih => intro a; simp only [List.foldl_cons, sumAbsR, ih, add_assoc]

theorem sumAbs_eq_sumAbsR (fits : List Int) : sumAbs fits = sumAbsR fits := by
  unfold sumAbs
  rw [foldl_addAbs, zero_add]

theorem sumAbsPairs_zip {α : Type} :
    ∀ (pop : List α) (fits : List Int), fits.length = pop.length →
      sumAbsPairs (pop.zip fits) = sumAbsR fits := by
  intro pop
  induction pop with
  | nil =>
    intro fits h
    have hf : fits = [] := List.eq_nil_of_length_eq_zero h
    subst hf
    rfl
  | cons x xs ih =>
    intro fits h
    cases fits with
    | nil => simp at h
    | cons f fs =>
      simp only [List.zip_cons_cons, sumAbsPairs, sumAbsR]
      exact congrArg (fun z => |f| + z) (ih fs (by simpa using h))

theorem rouletteGo_swap {α : Type} (t1 t2 : Int) :
    ∀ (ps : List (α × Int)) (total : Int) (p1 p2 : Option α),
      rouletteGo t2 t1 ps total p2 p1
        = ((rouletteGo t1 t2 ps total p1 p2).2, (rouletteGo t1 t2 ps total p1 p2).1) := by
  intro ps
  induction ps with
  | nil => intro total p1 p2; rfl
  | cons hd tl ih =>
    obtain ⟨ind, f⟩ := hd
    intro total p1 p2
    simp only [rouletteGo]
    by_cases h1 : (if t1 ≤ total + |f| then some ind else p1).isSome = true <;>
      by_cases h2 : (if t2 ≤ total + |f| then some ind else p2).isSome = true <;>
        simp [h1, h2, ih]

theorem rouletteGo_to_max {α : Type} (t1 t2 : Int) (hle : t1 ≤ t2) :
    ∀ (ps : List (α × Int)) (total : Int) (p1 : Option α),
      total < t2 → t2 ≤ total + sumAbsPairs ps →
      rouletteGo t1 t2 ps total p1 none
        = (firstCrossGo t2 ps total, firstCrossGo t2 ps total) := by
  intro ps
  induction ps with
  | nil =>
    intro total p1 h1 h2
    have h2b : t2 ≤ total + 0 := h2
    exact absurd h2b (by omega)
  | cons hd tl ih =>
    obtain ⟨ind, f⟩ := hd
    intro total p1 h1 h2
    have h2b : t2 ≤ total + (|f| + sumAbsPairs tl) := h2
    simp only [rouletteGo, firstCrossGo]
    by_cases hc : t2 ≤ total + |f|
    · have hc1 : t1 ≤ total + |f| := le_trans hle hc
      simp [hc, hc1]
    · simp only [if_neg hc]
      have hbrk : ¬((if t1 ≤ total + |f| then some ind else p1).isSome = true
          ∧ (none : Option α).isSome = true) := by simp
      rw [if_neg hbrk]
      exact ih (total + |f|) _ (by omega) (by omega)

theorem rouletteSelect_to_max {α : Type} (pop : List α) (fits : List Int)
    (t1 t2 : Int) (hle : t1 ≤ t2) (hlen : fits.length = pop.length)
    (hsum : t2 ≤ sumAbs fits) :
    rouletteSelect pop fits t1 t2
      = (firstCrossing pop fits t2, firstCrossing pop fits t2) := by
  have hs : sumAbsPairs (pop.zip fits) = sumAbsR fits := sumAbsPairs_zip pop fits hlen
  unfold rouletteSelect firstCrossing
  by_cases h0 : 0 < t2
  · exact rouletteGo_to_max t1 t2 hle (pop.zip fits) 0 none h0
      (by rw [zero_add, hs, ← sumAbs_eq_sumAbsR]; exact hsum)
  · cases hz : pop.zip fits with
    | nil => simp [rouletteGo, firstCrossGo]
    | cons hd tl =>
      obtain ⟨ind, f⟩ := hd
      have hc : t2 ≤ |f| := by have := abs_nonneg f; omega
      have hc1 : t1 ≤ |f| := le_trans hle hc
      simp [rouletteGo, firstCrossGo, hc, hc1]

/-- C2 counterexample: population `[10, 20]` with fitness vector `[1, 5]` (all
targets producible: both lie in `[0, 6)`): with targets 1 and 2, slot 1's target is
first reached at the first individual, yet the walk binds both slots to the second
individual — each slot is NOT bound to the first individual whose cumulative
absolute fitness reaches that slot's own target. -/
theorem rouletteSelect_not_per_slot :
    rouletteSelect [10, 20] [1, 5] 1 2
      ≠ (firstCrossing [10, 20] [1, 5] 1, firstCrossing [10, 20] [1, 5] 2) := by
  decide

/-- C2 amended: because each slot keeps being re-assigned while the walk continues
and the walk only stops once both slots are bound, both parent slots are bound to
the same individual: the first individual in population order whose cumulative sum
of absolute fitness reaches or exceeds the LARGER of the two drawn targets
(equivalently, reaches or exceeds both targets); the walk stops there. -/
theorem rouletteSelect_amended {α : Type} (pop : List α) (fits : List Int)
    (t1 t2 : Int) (hlen : fits.length = pop.length)
    (hsum : max t1 t2 ≤ sumAbs fits) :
    rouletteSelect pop fits t1 t2
      = (firstCrossing pop fits (max t1 t2), firstCrossing pop fits (max t1 t2)) := by
  rcases le_total t1 t2 with h | h
  · rw [max_eq_right h]
    exact rouletteSelect_to_max pop fits t1 t2 h hlen
      (by rw [max_eq_right h] at hsum; exact hsum)
  · rw [max_eq_left h]
    have h1 : rouletteSelect pop fits t2 t1
        = (firstCrossing pop fits t1, firstCrossing pop fits t1) :=
      rouletteSelect_to_max pop fits t2 t1 h hlen
        (by rw [max_eq_left h] at hsum; exact hsum)
    have h2 : rouletteSelect pop fits t1 t2
        = ((rouletteSelect pop fits t2 t1).2, (rouletteSelect pop fits t2 t1).1) :=
      rouletteGo_swap t2 t1 (pop.zip fits) 0 none none
    rw [h2, h1]

/-- C2 witness: the amended statement applied to population `[10, 20]`, fitness
`[1, 5]`, targets 1 and 2. -/
theorem rouletteSelect_amended_witness :
    rouletteSelect [10, 20] [1, 5] 1 2
      = (firstCrossing [10, 20] [1, 5] (max 1 2),
         firstCrossing [10, 20] [1, 5] (max 1 2)) :=
  rouletteSelect_amended [10, 20] [1, 5] 1 2 (by decide) (by decide)

theorem tournGo_snd_some (fits : List Int) :
    ∀ (draws : List Nat) (a b : Nat),
      ((tournGo fits draws (some a) (some b)).2).isSome = true := by
  intro draws
  induction draws with
  | nil => intro a b; rfl
  | cons p rest ih =>
    intro a b
    simp only [tournGo]
    by_cases h : fits.getD a 0 < fits.getD p 0
    · rw [if_pos h]; exact ih p a
    · rw [if_neg h]
      by_cases h2 : fits.getD b 0 < fits.getD p 0
      · rw [if_pos h2]; exact ih a p
      · rw [if_neg h2]; exact ih a b

theorem tournamentPair_snd_some (fits : List Int) (draws : List Nat)
    (h : 2 ≤ draws.length) : ((tournamentPair fits draws).2).isSome = true := by
  cases draws with
  | nil => simp at h
  | cons d1 rest1 =>
    cases rest1 with
    | nil => simp at h
    | cons d2 rest =>
      show ((tournGo fits (d2 :: rest) (some d1) none).2).isSome = true
      simp only [tournGo]
      by_cases hcmp : fits.getD d1 0 < fits.getD d2 0
      · rw [if_pos hcmp]; exact tournGo_snd_some fits rest d2 d1
      · rw [if_neg hcmp]; exact tournGo_snd_some fits rest d1 d2

/-- C6 counterexample: the claim is false for every population and draw sequence —
after the second of the 8 draws the runner-up slot is always bound (a draw that
beats the leader demotes the old leader into the slot, and any other draw takes the
slot directly while it is still unset), so no population and 8-draw sequence can
leave it unset. -/
theorem tournament_runner_up_never_unset : ¬ tournamentRunnerUpCanBeNone := by
  rintro ⟨fits, draws, hlen, h8, hvalid, hnone⟩
  have hsome := tournamentPair_snd_some fits draws (by omega)
  rw [hnone] at hsome
  simp at hsome

/-- C6 amended: for every fitness vector and every sequence of 8 tournament draws,
the runner-up slot is bound at the end of the scan (it is set no later than the
second draw); tournament selection can never finish without a second parent. -/
theorem tournament_runner_up_always_set (fits : List Int) (draws : List Nat)
    (h8 : draws.length = 8) : ((tournamentPair fits draws).2).isSome = true :=
  tournamentPair_snd_some fits draws (by omega)

/-- C6 witness: the amended statement at the spec's feared scenario — the unique
maximum is sampled first and every later sample is weaker and equal among
themselves — where the runner-up is nevertheless bound. -/
theorem tournament_runner_up_always_set_witness :
    ((tournamentPair [3, 1] [0, 1, 1, 1, 1, 1, 1, 1]).2).isSome = true :=
  tournament_runner_up_always_set [3, 1] [0, 1, 1, 1, 1, 1, 1, 1] (by decide)

theorem tournGo_keeps_max (fits : List Int) (m : Nat)
    (hmax : ∀ p, p < fits.length → ¬ fits.getD m 0 < fits.getD p 0) :
    ∀ (draws : List Nat) (m2 : Option Nat), (∀ d ∈ draws, d < fits.length) →
      ((tournGo fits draws (some m) m2)).1 = some m := by
  intro draws
  induction draws with
  | nil => intro m2 _; rfl
  | cons p rest ih =>
    intro m2 hv
    have hp : p < fits.length := hv p (List.mem_cons_self p rest)
    have hvr : ∀ d ∈ rest, d < fits.length := fun d hd => hv d (List.mem_cons_of_mem p hd)
    simp only [tournGo]
    rw [if_neg (hmax p hp)]
    cases m2 with
    | none => exact ih (some p) hvr
    | some b =>
      show (if fits.getD b 0 < fits.getD p 0 then tournGo fits rest (some m) (some p)
          else tournGo fits rest (some m) (some b)).1 = some m
      by_cases hb : fits.getD b 0 < fits.getD p 0
      · rw [if_pos hb]; exact ih (some p) hvr
      · rw [if_neg hb]; exact ih (some b) hvr

theorem tournGo_reaches_max (fits : List Int) (m : Nat)
    (huniq : ∀ j, j < fits.length → j ≠ m → fits.getD j 0 < fits.getD m 0) :
    ∀ (draws : List Nat) (m1 m2 : Option Nat),
      (∀ d ∈ draws, d < fits.length) → m ∈ draws →
      (m1 = none ∨ ∃ a, m1 = some a ∧ a < fits.length) →
      ((tournGo fits draws m1 m2)).1 = some m := by
  have hmax : ∀ p, p < fits.length → ¬ fits.getD m 0 < fits.getD p 0 := by
    intro p hp hlt
    by_cases hpm : p = m
    · subst hpm; exact lt_irrefl _ hlt
    · exact absurd hlt (not_lt_of_gt (huniq p hp hpm))
  intro draws
  induction draws with
  | nil => intro m1 m2 _ hmem _; simp at hmem
  | cons p rest ih =>
    intro m1 m2 hv hmem hm1
    have hp : p < fits.length := hv p (List.mem_cons_self p rest)
    have hvr : ∀ d ∈ rest, d < fits.length := fun d hd => hv d (List.mem_cons_of_mem p hd)
    have hmem2 : p ≠ m → m ∈ rest := by
      intro hpm
      rcases List.mem_cons.mp hmem with h | h
      · exact absurd h.symm hpm
      · exact h
    rcases hm1 with rfl | ⟨a, rfl, ha⟩
    · show ((tournGo fits rest (some p) m2)).1 = some m
      by_cases hpm : p = m
      · subst hpm; exact tournGo_keeps_max fits p hmax rest m2 hvr
      · exact ih (some p) m2 hvr (hmem2 hpm) (Or.inr ⟨p, rfl, hp⟩)
    · simp only [tournGo]
      by_cases hcmp : fits.getD a 0 < fits.getD p 0
      · rw [if_pos hcmp]
        by_cases hpm : p = m
        · subst hpm; exact tournGo_keeps_max fits p hmax rest (some a) hvr
        · exact ih (some p) (some a) hvr (hmem2 hpm) (Or.inr ⟨p, rfl, hp⟩)
      · rw [if_neg hcmp]
        by_cases hpm : p = m
        · subst hpm
          have ham : a = p := by
            by_contra hne
            exact hcmp (huniq a ha hne)
          subst ham
          cases m2 with
          | none => exact tournGo_keeps_max fits a hmax rest (some a) hvr
          | some b =>
            show (if fits.getD b 0 < fits.getD a 0 then tournGo fits rest (some a) (some a)
                else tournGo fits rest (some a) (some b)).1 = some a
            by_cases hb : fits.getD b 0 < fits.getD a 0
            · rw [if_pos hb]; exact tournGo_keeps_max fits a hmax rest (some a) hvr
            · rw [if_neg hb]; exact tournGo_keeps_max fits a hmax rest (some b) hvr
        · cases m2 with
          | none => exact ih (some a) (some p) hvr (hmem2 hpm) (Or.inr ⟨a, rfl, ha⟩)
          | some b =>
            show (if fits.getD b 0 < fits.getD p 0 then tournGo fits rest (some a) (some p)
                else tournGo fits rest (some a) (some b)).1 = some m
            by_cases hb : fits.getD b 0 < fits.getD p 0
            · rw [if_pos hb]; exact ih (some a) (some p) hvr (hmem2 hpm) (Or.inr ⟨a, rfl, ha⟩)
            · rw [if_neg hb]; exact ih (some a) (some b) hvr (hmem2 hpm) (Or.inr ⟨a, rfl, ha⟩)

/-- C7: in any population whose fitness vector has a unique maximum at index `m`,
any sequence of 8 valid tournament draws that contains `m` ends the scan with the
best slot holding `m`, so the individual at `m` is returned as the first of the two
parents. -/
theorem tournament_selects_unique_max {α : Type} (pop : List α) (fits : List Int)
    (draws : List Nat) (m : Nat)
    (huniq : ∀ j, j < fits.length → j ≠ m → fits.getD j 0 < fits.getD m 0)
    (h8 : draws.length = 8)
    (hvalid : ∀ d ∈ draws, d < fits.length)
    (hmem : m ∈ draws) :
    (tournamentPair fits draws).1 = some m
    ∧ ∀ x y, tournamentSelect pop fits draws = some (x, y) → pop.get? m = some x := by
  have h1 : (tournamentPair fits draws).1 = some m :=
    tournGo_reaches_max fits m huniq draws none none hvalid hmem (Or.inl rfl)
  refine ⟨h1, ?_⟩
  intro x y hxy
  unfold tournamentSelect at hxy
  rcases hp : tournamentPair fits draws with ⟨m1, m2⟩
  rw [hp] at hxy
  have hm1 : m1 = some m := by rw [← h1, hp]
  subst hm1
  cases m2 with
  | none => simp at hxy
  | some b =>
    have hxy2 : (match pop.get? m, pop.get? b with
        | some xx, some yy => some (xx, yy)
        | _, _ => none) = some (x, y) := hxy
    cases hgx : pop.get? m with
    | none => rw [hgx] at hxy2; simp at hxy2
    | some x2 =>
      cases hgy : pop.get? b with
      | none => rw [hgx, hgy] at hxy2; simp at hxy2
      | some y2 =>
        rw [hgx, hgy] at hxy2
        simp only [Option.some.injEq, Prod.mk.injEq] at hxy2
        exact congrArg some hxy2.1

/-- C7 witness: fitness vector `[1, 5, 2]` with unique maximum at index 1, draws
`[0, 1, 2, 0, 0, 0, 0, 0]` containing index 1. -/
theorem tournament_selects_unique_max_witness :
    (tournamentPair [1, 5, 2] [0, 1, 2, 0, 0, 0, 0, 0]).1 = some 1
    ∧ ∀ x y, tournamentSelect [10, 20, 30] [1, 5, 2] [0, 1, 2, 0, 0, 0, 0, 0]
        = some (x, y) → [10, 20, 30].get? 1 = some x :=
  tournament_selects_unique_max [10, 20, 30] [1, 5, 2] [0, 1, 2, 0, 0, 0, 0, 0] 1
    (by decide) (by decide) (by decide) (by decide)

theorem foldl_cond_none {α : Type} (P : Nat → Prop) [DecidablePred P]
    (g : List α → Nat → α) (h : ∀ i, ¬ P i) :
    ∀ (idxs : List Nat) (c : List α),
      idxs.foldl (fun cc i => if P i then cc.set i (g cc i) else cc) c = c := by
  intro idxs
  induction idxs with
  | nil => intro c; rfl
  | cons i tl ih =>
    intro c
    simp only [List.foldl_cons, if_neg (h i)]
    exact ih c

theorem foldl_cond_all {α : Type} (P : Nat → Prop) [DecidablePred P]
    (g : List α → Nat → α) (h : ∀ i, P i) :
    ∀ (idxs : List Nat) (c : List α),
      idxs.foldl (fun cc i => if P i then cc.set i (g cc i) else cc) c
        = idxs.foldl (fun cc i => cc.set i (g cc i)) c := by
  intro idxs
  induction idxs with
  | nil => intro c; rfl
  | cons i tl ih =>
    intro c
    simp only [List.foldl_cons, if_pos (h i)]
    exact ih _

/-- C9: the mutation draws are uniform values in `[0, 1)`.  With mutation rate
exactly 0 no draw falls below the rate, so offspring production returns the
crossover-stage child unchanged (no gene position replaced); with mutation rate
exactly 1 every draw falls below the rate, so the per-gene mutation function
(`mutate` in non-viable mode, `viable_mutation` in viable mode — either shape of
`stepG`) is applied at every gene position of the child. -/
theorem mutation_rate_extremes {α : Type} [Inhabited α] (viaCheck : Bool)
    (viaCross : List α → List α → List α) (viaMut : List α → Nat → α)
    (mutateFn : α → α) (pop : List (List α)) (fits : List Int) (total : Int)
    (mode : Nat) (d : Draws) (stepG : List α → Nat → α) (child : List α)
    (h0 : ∀ i, 0 ≤ d.mutr i) (h1 : ∀ i, d.mutr i < 1) :
    produceOffspring viaCheck viaCross viaMut 0 mutateFn pop fits total mode d
        = offspringCrossStage viaCheck viaCross pop fits total mode d
    ∧ mutationPass 0 d.mutr stepG child = child
    ∧ mutationPass 1 d.mutr stepG child = mutateEvery stepG child := by
  have hz : ∀ (c : List α) (sg : List α → Nat → α), mutationPass 0 d.mutr sg c = c := by
    intro c sg
    exact foldl_cond_none (fun i => d.mutr i < 0) sg
      (fun i => not_lt.mpr (h0 i)) (List.range c.length) c
  have hone : ∀ (c : List α) (sg : List α → Nat → α),
      mutationPass 1 d.mutr sg c = mutateEvery sg c := by
    intro c sg
    exact foldl_cond_all (fun i => d.mutr i < 1) sg h1 (List.range c.length) c
  refine ⟨?_, hz child stepG, hone child stepG⟩
  unfold produceOffspring
  cases hcs : offspringCrossStage viaCheck viaCross pop fits total mode d with
  | none => rfl
  | some c =>
    show some (mutationPass 0 d.mutr (mutStepG viaCheck viaMut mutateFn) c) = some c
    rw [hz c _]

/-- C9 witness: the statement at a concrete non-viable configuration with all
mutation draws equal to one half. -/
theorem mutation_rate_extremes_witness :
    produceOffspring false (fun p _ => p) (fun _ _ => 0) 0 (fun g => g + 1)
        [[1, 2, 3], [4, 5, 6]] [1, 1] 2 0
        ⟨1, 1, [0, 0, 0, 0, 0, 0, 0, 0], 1, true, fun _ => 1/2⟩
        = offspringCrossStage false (fun p _ => p) [[1, 2, 3], [4, 5, 6]] [1, 1] 2 0
            ⟨1, 1, [0, 0, 0, 0, 0, 0, 0, 0], 1, true, fun _ => 1/2⟩
    ∧ mutationPass 0 (fun _ => 1/2) (fun c i => c.getD i 0 + 1) [7, 8, 9] = [7, 8, 9]
    ∧ mutationPass 1 (fun _ => 1/2) (fun c i => c.getD i 0 + 1) [7, 8, 9]
        = mutateEvery (fun c i => c.getD i 0 + 1) [7, 8, 9] :=
  mutation_rate_extremes false (fun p _ => p) (fun _ _ => 0) (fun g => g + 1)
    [[1, 2, 3], [4, 5, 6]] [1, 1] 2 0
    ⟨1, 1, [0, 0, 0, 0, 0, 0, 0, 0], 1, true, fun _ => 1/2⟩
    (fun c i => c.getD i 0 + 1) [7, 8, 9]
    (fun i => by show (0 : Rat) ≤ 1 / 2; norm_num)
    (fun i => by show (1 : Rat) / 2 < 1; norm_num)

/-- C5: for every offspring, the roulette pipeline is used exactly when the
requested selection mode is 0 — which is what `__reproduce` requests for every
offspring it produces — and the fitness of the population's first member is
non-negative; whenever that gate fails (negative first fitness, or a non-zero
mode), selection falls through to the tournament pipeline. -/
theorem selection_gate {α : Type} [Inhabited α] (viaCross : List α → List α → List α)
    (viaMut : List α → Nat → α) (rate : Rat) (mutateFn : α → α)
    (pop : List (List α)) (f0 : Int) (tl : List Int) (total : Int) (d : Draws)
    (popSize : Nat) (fits : List Int) (ds : Nat → Draws) :
    (0 ≤ f0 → produceOffspring false viaCross viaMut rate mutateFn pop (f0 :: tl) total 0 d
        = roulettePathNV rate mutateFn pop (f0 :: tl) total d)
    ∧ (f0 < 0 → produceOffspring false viaCross viaMut rate mutateFn pop (f0 :: tl) total 0 d
        = tournamentPathNV rate mutateFn pop (f0 :: tl) d)
    ∧ (∀ m, m ≠ 0 → produceOffspring false viaCross viaMut rate mutateFn pop (f0 :: tl) total m d
        = tournamentPathNV rate mutateFn pop (f0 :: tl) d)
    ∧ reproduce false viaCross viaMut rate mutateFn popSize pop fits ds
        = seqOpt ((List.range popSize).map fun j =>
            produceOffspring false viaCross viaMut rate mutateFn pop fits (sumFits fits) 0 (ds j)) := by
  refine ⟨?_, ?_, ?_, rfl⟩
  · intro h0
    have hsel : selectParents pop (f0 :: tl) total 0 d
        = rouletteParents pop (f0 :: tl) total d := by
      unfold selectParents
      simp [h0]
    unfold produceOffspring offspringCrossStage roulettePathNV
    rw [hsel]
    cases rouletteParents pop (f0 :: tl) total d with
    | none => rfl
    | some pr =>
      obtain ⟨p1, p2⟩ := pr
      cases crossoverNV p1 p2 d.breakpoint d.coin with
      | none => rfl
      | some c => rfl
  · intro h0
    have hsel : selectParents pop (f0 :: tl) total 0 d
        = tournamentSelect pop (f0 :: tl) d.participants := by
      unfold selectParents
      simp [not_le.mpr h0]
    unfold produceOffspring offspringCrossStage tournamentPathNV
    rw [hsel]
    cases tournamentSelect pop (f0 :: tl) d.participants with
    | none => rfl
    | some pr =>
      obtain ⟨p1, p2⟩ := pr
      cases crossoverNV p1 p2 d.breakpoint d.coin with
      | none => rfl
      | some c => rfl
  · intro m hm
    have hsel : selectParents pop (f0 :: tl) total m d
        = tournamentSelect pop (f0 :: tl) d.participants := by
      unfold selectParents
      rw [if_neg hm]
    unfold produceOffspring offspringCrossStage tournamentPathNV
    rw [hsel]
    cases tournamentSelect pop (f0 :: tl) d.participants with
    | none => rfl
    | some pr =>
      obtain ⟨p1, p2⟩ := pr
      cases crossoverNV p1 p2 d.breakpoint d.coin with
      | none => rfl
      | some c => rfl

/-- C4: when viability checking is enabled, construction succeeds exactly when all
four viability-bundle members are present; any error it raises names a capability
that is indeed absent (the first absent one in declaration order); the error is
raised before any individual is built, so a failed construction yields no
population; with viability checking disabled (or the full bundle present)
construction succeeds and builds the initial population with the appropriate
factory called `pop_size` times. -/
theorem mkEngine_spec {α : Type} (cfg : GAConfig α) :
    ((∃ pop, mkEngine cfg = Except.ok pop) ↔
        (cfg.viabilityCheck = false ∨
          (cfg.viabilityCondition.isSome ∧ cfg.viableMutation.isSome
            ∧ cfg.viableCrossover.isSome ∧ cfg.viableFactory.isSome)))
    ∧ (∀ name, mkEngine cfg = Except.error (ConfigError.missing name) →
        capabilityAbsent cfg name)
    ∧ (cfg.viabilityCheck = false →
        mkEngine cfg = Except.ok (initPopulation cfg.individualFactory cfg.popSize))
    ∧ (∀ vf, cfg.viabilityCheck = true → cfg.viableFactory = some vf →
        cfg.viabilityCondition.isSome → cfg.viableMutation.isSome →
        cfg.viableCrossover.isSome →
        mkEngine cfg = Except.ok (initPopulation vf cfg.popSize)) := by
  obtain ⟨n, vc, c1, c2, c3, c4, fac⟩ := cfg
  cases vc <;> cases c1 <;> cases c2 <;> cases c3 <;> cases c4 <;>
    simp [mkEngine, capabilityAbsent]

theorem rouletteGo_mem {α : Type} (t1 t2 : Int) :
    ∀ (ps : List (α × Int)) (total : Int) (p1 p2 : Option α) (x : α),
      ((rouletteGo t1 t2 ps total p1 p2).1 = some x
        ∨ (rouletteGo t1 t2 ps total p1 p2).2 = some x) →
      (x ∈ ps.map Prod.fst ∨ p1 = some x ∨ p2 = some x) := by
  intro ps
  induction ps with
  | nil =>
    intro total p1 p2 x h
    exact Or.inr h
  | cons hd tl ih =>
    obtain ⟨ind, f⟩ := hd
    intro total p1 p2 x h
    have hmap : x ∈ ((ind, f) :: tl).map Prod.fst ↔ (x = ind ∨ x ∈ tl.map Prod.fst) := by
      simp
    have slot1 : (if t1 ≤ total + |f| then some ind else p1) = some x →
        (x = ind ∨ p1 = some x) := by
      intro hs
      by_cases hc : t1 ≤ total + |f|
      · rw [if_pos hc] at hs; exact Or.inl (Option.some.inj hs).symm
      · rw [if_neg hc] at hs; exact Or.inr hs
    have slot2 : (if t2 ≤ total + |f| then some ind else p2) = some x →
        (x = ind ∨ p2 = some x) := by
      intro hs
      by_cases hc : t2 ≤ total + |f|
      · rw [if_pos hc] at hs; exact Or.inl (Option.some.inj hs).symm
      · rw [if_neg hc] at hs; exact Or.inr hs
    simp only [rouletteGo] at h
    by_cases hbrk : ((if t1 ≤ total + |f| then some ind else p1).isSome = true
        ∧ (if t2 ≤ total + |f| then some ind else p2).isSome = true)
    · rw [if_pos hbrk] at h
      rcases h with h | h
      · rcases slot1 h with he | hp
        · exact Or.inl (hmap.mpr (Or.inl he))
        · exact Or.inr (Or.inl hp)
      · rcases slot2 h with he | hp
        · exact Or.inl (hmap.mpr (Or.inl he))
        · exact Or.inr (Or.inr hp)
    · rw [if_neg hbrk] at h
      rcases ih (total + |f|) _ _ x h with hmem | hp1 | hp2
      · exact Or.inl (hmap.mpr (Or.inr hmem))
      · rcases slot1 hp1 with he | hp
        · exact Or.inl (hmap.mpr (Or.inl he))
        · exact Or.inr (Or.inl hp)
      · rcases slot2 hp2 with he | hp
        · exact Or.inl (hmap.mpr (Or.inl he))
        · exact Or.inr (Or.inr hp)

theorem zip_map_fst_mem {α : Type} (pop : List α) (fits : List Int) (x : α)
    (h : x ∈ (pop.zip fits).map Prod.fst) : x ∈ pop := by
  rcases List.mem_map.mp h with ⟨pr, hin, heq⟩
  obtain ⟨a, b⟩ := pr
  rw [← heq]
  exact (List.of_mem_zip hin).1

theorem rouletteParents_mem {α : Type} (pop : List α) (fits : List Int)
    (total : Int) (d : Draws) (p1 p2 : α)
    (h : rouletteParents pop fits total d = some (p1, p2)) : p1 ∈ pop ∧ p2 ∈ pop := by
  unfold rouletteParents at h
  by_cases hg : (0 < total ∧ 0 ≤ d.t1 ∧ d.t1 < total ∧ 0 ≤ d.t2 ∧ d.t2 < total)
  · rw [if_pos hg] at h
    rcases hr : rouletteSelect pop fits d.t1 d.t2 with ⟨o1, o2⟩
    rw [hr] at h
    cases o1 with
    | none => simp at h
    | some x1 =>
      cases o2 with
      | none => simp at h
      | some x2 =>
        have h2 : some (x1, x2) = some (p1, p2) := h
        have hx : x1 = p1 ∧ x2 = p2 := by
          have := Option.some.inj h2
          exact ⟨congrArg Prod.fst this, congrArg Prod.snd this⟩
        obtain ⟨rfl, rfl⟩ := hx
        have hg1 : (rouletteGo d.t1 d.t2 (pop.zip fits) 0 none none).1 = some x1 := by
          rw [show rouletteGo d.t1 d.t2 (pop.zip fits) 0 none none
              = (some x1, some x2) from hr]
        have hg2 : (rouletteGo d.t1 d.t2 (pop.zip fits) 0 none none).2 = some x2 := by
          rw [show rouletteGo d.t1 d.t2 (pop.zip fits) 0 none none
              = (some x1, some x2) from hr]
        constructor
        · rcases rouletteGo_mem d.t1 d.t2 (pop.zip fits) 0 none none x1
              (Or.inl hg1) with hmem | hp | hp
          · exact zip_map_fst_mem pop fits x1 hmem
          · cases hp
          · cases hp
        · rcases rouletteGo_mem d.t1 d.t2 (pop.zip fits) 0 none none x2
              (Or.inr hg2) with hmem | hp | hp
          · exact zip_map_fst_mem pop fits x2 hmem
          · cases hp
          · cases hp
  · rw [if_neg hg] at h
    cases h

theorem tournamentSelect_mem {α : Type} (pop : List α) (fits : List Int)
    (draws : List Nat) (p1 p2 : α)
    (h : tournamentSelect pop fits draws = some (p1, p2)) : p1 ∈ pop ∧ p2 ∈ pop := by
  unfold tournamentSelect at h
  rcases hp : tournamentPair fits draws with ⟨o1, o2⟩
  rw [hp] at h
  cases o1 with
  | none => simp at h
  | some a =>
    cases o2 with
    | none => simp at h
    | some b =>
      have h2 : (match pop.get? a, pop.get? b with
          | some xx, some yy => some (xx, yy)
          | _, _ => none) = some (p1, p2) := h
      cases hga : pop.get? a with
      | none => rw [hga] at h2; simp at h2
      | some x =>
        cases hgb : pop.get? b with
        | none => rw [hga, hgb] at h2; simp at h2
        | some y =>
          rw [hga, hgb] at h2
          simp only [Option.some.injEq, Prod.mk.injEq] at h2
          obtain ⟨rfl, rfl⟩ := h2
          exact ⟨List.get?_mem hga, List.get?_mem hgb⟩

theorem selectParents_mem {α : Type} (pop : List α) (fits : List Int) (total : Int)
    (mode : Nat) (d : Draws) (p1 p2 : α)
    (h : selectParents pop fits total mode d = some (p1, p2)) :
    p1 ∈ pop ∧ p2 ∈ pop := by
  unfold selectParents at h
  by_cases hm : mode = 0
  · rw [if_pos hm] at h
    cases hh : fits.head? with
    | none => rw [hh] at h; cases h
    | some f0 =>
      rw [hh] at h
      have h2 : (if 0 ≤ f0 then rouletteParents pop fits total d
          else tournamentSelect pop fits d.participants) = some (p1, p2) := h
      by_cases hf : 0 ≤ f0
      · rw [if_pos hf] at h2
        exact rouletteParents_mem pop fits total d p1 p2 h2
      · rw [if_neg hf] at h2
        exact tournamentSelect_mem pop fits d.participants p1 p2 h2
  · rw [if_neg hm] at h
    exact tournamentSelect_mem pop fits d.participants p1 p2 h

theorem crossoverNV_some_length {α : Type} (p1 p2 : List α) (b : Nat) (coin : Bool)
    (c : List α) (hlen : p2.length = p1.length)
    (h : crossoverNV p1 p2 b coin = some c) : c.length = p1.length := by
  unfold crossoverNV at h
  by_cases hg : (3 ≤ p1.length ∧ 1 ≤ b ∧ b < p1.length - 1)
  · rw [if_pos hg] at h
    obtain ⟨h3, hb1, hb2⟩ := hg
    have hc := Option.some.inj h
    rw [← hc]
    cases coin <;> simp [hlen] <;> omega
  · rw [if_neg hg] at h
    cases h

theorem foldl_set_length {α : Type} (P : Nat → Prop) [DecidablePred P]
    (g : List α → Nat → α) :
    ∀ (idxs : List Nat) (c : List α),
      (idxs.foldl (fun cc i => if P i then cc.set i (g cc i) else cc) c).length
        = c.length := by
  intro idxs
  induction idxs with
  | nil => intro c; rfl
  | cons i tl ih =>
    intro c
    simp only [List.foldl_cons]
    rw [ih]
    by_cases hp : P i
    · rw [if_pos hp, List.length_set]
    · rw [if_neg hp]

theorem mutationPass_length {α : Type} (rate : Rat) (r : Nat → Rat)
    (stepG : List α → Nat → α) (c : List α) :
    (mutationPass rate r stepG c).length = c.length :=
  foldl_set_length (fun i => r i < rate) stepG (List.range c.length) c

theorem produceOffspring_some_length {α : Type} [Inhabited α] (viaCheck : Bool)
    (viaCross : List α → List α → List α) (viaMut : List α → Nat → α)
    (rate : Rat) (mutateFn : α → α) (pop : List (List α)) (fits : List Int)
    (total : Int) (mode : Nat) (d : Draws) (L : Nat) (c : List α)
    (hpop : ∀ ind ∈ pop, ind.length = L)
    (hvc : ∀ q1 q2 : List α, q1.length = L → q2.length = L → (viaCross q1 q2).length = L)
    (h : produceOffspring viaCheck viaCross viaMut rate mutateFn pop fits total mode d
        = some c) :
    c.length = L := by
  unfold produceOffspring at h
  cases hcs : offspringCrossStage viaCheck viaCross pop fits total mode d with
  | none => rw [hcs] at h; cases h
  | some ch =>
    rw [hcs] at h
    have hc : mutationPass rate d.mutr (mutStepG viaCheck viaMut mutateFn) ch = c :=
      Option.some.inj h
    have hch : ch.length = L := by
      unfold offspringCrossStage at hcs
      cases hsp : selectParents pop fits total mode d with
      | none => rw [hsp] at hcs; cases hcs
      | some pr =>
        obtain ⟨q1, q2⟩ := pr
        rw [hsp] at hcs
        have hmem := selectParents_mem pop fits total mode d q1 q2 hsp
        have h1 : q1.length = L := hpop q1 hmem.1
        have h2 : q2.length = L := hpop q2 hmem.2
        cases viaCheck with
        | true =>
          have hv : viaCross q1 q2 = ch := Option.some.inj hcs
          rw [← hv]
          exact hvc q1 q2 h1 h2
        | false =>
          have hcx : crossoverNV q1 q2 d.breakpoint d.coin = some ch := hcs
          exact (crossoverNV_some_length q1 q2 d.breakpoint d.coin ch
            (h2.trans h1.symm) hcx).trans h1
    rw [← hc, mutationPass_length]
    exact hch

theorem seqOpt_some_length {β : Type} :
    ∀ (l : List (Option β)) (out : List β), seqOpt l = some out →
      out.length = l.length := by
  intro l
  induction l with
  | nil =>
    intro out h
    have := Option.some.inj h
    rw [← this]
    rfl
  | cons o tl ih =>
    intro out h
    cases o with
    | none => cases h
    | some x =>
      have h2 : (seqOpt tl).map (fun l => x :: l) = some out := h
      cases hs : seqOpt tl with
      | none => rw [hs] at h2; cases h2
      | some rest =>
        rw [hs] at h2
        have hout := Option.some.inj h2
        rw [← hout, List.length_cons, List.length_cons, ih rest hs]

theorem seqOpt_some_mem {β : Type} :
    ∀ (l : List (Option β)) (out : List β), seqOpt l = some out →
      ∀ y ∈ out, some y ∈ l := by
  intro l
  induction l with
  | nil =>
    intro out h y hy
    have := Option.some.inj h
    rw [← this] at hy
    exact absurd hy (List.not_mem_nil y)
  | cons o tl ih =>
    intro out h y hy
    cases o with
    | none => cases h
    | some x =>
      have h2 : (seqOpt tl).map (fun l => x :: l) = some out := h
      cases hs : seqOpt tl with
      | none => rw [hs] at h2; cases h2
      | some rest =>
        rw [hs] at h2
        have hout := Option.some.inj h2
        rw [← hout] at hy
        rcases List.mem_cons.mp hy with rfl | hmem
        · exact List.mem_cons_self _ _
        · exact List.mem_cons_of_mem _ (ih rest hs y hmem)

/-- C3: the constructor builds the initial population by calling the factory once
per slot, exactly `pop_size` times, so it has exactly `pop_size` members, all of
the factory's gene-length; and every reproduction step that completes replaces the
population wholesale with exactly `pop_size` offspring, each of the parents' common
gene-length (the caller-supplied factory and viable crossover are assumed to honour
their length contracts; the engine's own non-viable crossover and mutation are
proved length-preserving). -/
theorem population_invariant {α : Type} [Inhabited α] (factory : Nat → List α)
    (n : Nat) (L : Nat) (viaCheck : Bool) (viaCross : List α → List α → List α)
    (viaMut : List α → Nat → α) (rate : Rat) (mutateFn : α → α) (popSize : Nat)
    (pop : List (List α)) (fits : List Int) (ds : Nat → Draws)
    (hfac : ∀ j, (factory j).length = L)
    (hvc : ∀ q1 q2 : List α, q1.length = L → q2.length = L → (viaCross q1 q2).length = L)
    (hpop : ∀ ind ∈ pop, ind.length = L) :
    (initPopulation factory n).length = n
    ∧ (∀ ind ∈ initPopulation factory n, ind.length = L)
    ∧ (∀ newPop, reproduce viaCheck viaCross viaMut rate mutateFn popSize pop fits ds
          = some newPop → newPop.length = popSize ∧ ∀ ind ∈ newPop, ind.length = L) := by
  refine ⟨by simp [initPopulation], ?_, ?_⟩
  · intro ind hind
    unfold initPopulation at hind
    rcases List.mem_map.mp hind with ⟨j, hj, rfl⟩
    exact hfac j
  · intro newPop h
    unfold reproduce at h
    constructor
    · rw [seqOpt_some_length _ newPop h]
      simp
    · intro ind hind
      have hsome := seqOpt_some_mem _ newPop h ind hind
      rcases List.mem_map.mp hsome with ⟨j, hj, hoff⟩
      exact produceOffspring_some_length viaCheck viaCross viaMut rate mutateFn pop
        fits (sumFits fits) 0 (ds j) L ind hpop hvc hoff

/-- C3 witness: the statement at a concrete configuration with gene-length 3 and
population size 2. -/
theorem population_invariant_witness :
    (initPopulation (fun _ => ([0, 0, 0] : List Nat)) 2).length = 2
    ∧ (∀ ind ∈ initPopulation (fun _ => ([0, 0, 0] : List Nat)) 2, ind.length = 3)
    ∧ (∀ newPop, reproduce false (fun q _ => q) (fun _ _ => 0) 0 (fun g => g) 2
          [[1, 2, 3], [4, 5, 6]] [1, 1]
          (fun _ => ⟨0, 0, [0, 0, 0, 0, 0, 0, 0, 0], 1, true, fun _ => 0⟩)
          = some newPop → newPop.length = 2 ∧ ∀ ind ∈ newPop, ind.length = 3) :=
  population_invariant (fun _ => [0, 0, 0]) 2 3 false (fun q _ => q) (fun _ _ => 0)
    0 (fun g => g) 2 [[1, 2, 3], [4, 5, 6]] [1, 1]
    (fun _ => ⟨0, 0, [0, 0, 0, 0, 0, 0, 0, 0], 1, true, fun _ => 0⟩)
    (fun j => rfl) (fun q1 q2 h1 h2 => h1) (by decide)

theorem popRel_succ {α : Type} (step : Nat → List (List α) → List (List α)) :
    ∀ (j i : Nat) (pop : List (List α)),
      popRel step i pop (j + 1) = step (i + j) (popRel step i pop j) := by
  intro j
  induction j with
  | zero => intro i pop; rfl
  | succ j ih =>
    intro i pop
    show popRel step (i + 1) (step i pop) (j + 1)
        = step (i + (j + 1)) (popRel step i pop (j + 1))
    rw [ih (i + 1) (step i pop)]
    have hnum : i + 1 + j = i + (j + 1) := by omega
    rw [hnum]
    rfl

theorem popAtGen_eq_popRel {α : Type} (step : Nat → List (List α) → List (List α))
    (pop : List (List α)) : ∀ n, popAtGen step pop n = popRel step 1 pop n := by
  intro n
  induction n with
  | zero => rfl
  | succ n ih =>
    show step (n + 1) (popAtGen step pop n) = popRel step 1 pop (n + 1)
    rw [ih, popRel_succ step n 1 pop]
    have hnum : 1 + n = n + 1 := by omega
    rw [hnum]

theorem simGo_spec {α : Type} (fitF : List α → Int) (term : Int → Bool)
    (step : Nat → List (List α) → List (List α)) :
    ∀ (k i fuel : Nat) (pop : List (List α)),
      k < fuel →
      anyTerm fitF term (popRel step i pop k) = true →
      (∀ j, j < k → anyTerm fitF term (popRel step i pop j) = false) →
      ((simGo fitF term step i fuel pop).stopGen = i + k
        ∧ (simGo fitF term step i fuel pop).reproCount = k
        ∧ (simGo fitF term step i fuel pop).best.length = k + 1
        ∧ (simGo fitF term step i fuel pop).worst.length = k + 1
        ∧ (simGo fitF term step i fuel pop).avg.length = k + 1
        ∧ (simGo fitF term step i fuel pop).historic.length = k + 1
        ∧ (simGo fitF term step i fuel pop).best.get? k
            = some (listMax ((popRel step i pop k).map fitF))
        ∧ (simGo fitF term step i fuel pop).worst.get? k
            = some (listMin ((popRel step i pop k).map fitF))
        ∧ (simGo fitF term step i fuel pop).avg.get? k
            = some (listAvg ((popRel step i pop k).map fitF))
        ∧ (simGo fitF term step i fuel pop).historic.get? k
            = some ((popRel step i pop k).getD
                (argmaxIdx ((popRel step i pop k).map fitF)) [])) := by
  intro k
  induction k with
  | zero =>
    intro i fuel pop hk hterm hbefore
    cases fuel with
    | zero => omega
    | succ f =>
      have hrec : simGo fitF term step i (f + 1) pop
          = ⟨[listMax (pop.map fitF)], [listMin (pop.map fitF)],
             [listAvg (pop.map fitF)],
             [pop.getD (argmaxIdx (pop.map fitF)) []], i, 0⟩ := by
        simp only [simGo]
        rw [if_pos (show (pop.map fitF).any term = true from hterm)]
      rw [hrec]
      exact ⟨rfl, rfl, rfl, rfl, rfl, rfl, rfl, rfl, rfl, rfl⟩
  | succ k ih =>
    intro i fuel pop hk hterm hbefore
    cases fuel with
    | zero => omega
    | succ f =>
      have hfalse : (pop.map fitF).any term = false := hbefore 0 (by omega)
      have hrec : simGo fitF term step i (f + 1) pop
          = ⟨listMax (pop.map fitF) :: (simGo fitF term step (i + 1) f (step i pop)).best,
             listMin (pop.map fitF) :: (simGo fitF term step (i + 1) f (step i pop)).worst,
             listAvg (pop.map fitF) :: (simGo fitF term step (i + 1) f (step i pop)).avg,
             pop.getD (argmaxIdx (pop.map fitF)) []
               :: (simGo fitF term step (i + 1) f (step i pop)).historic,
             (simGo fitF term step (i + 1) f (step i pop)).stopGen,
             (simGo fitF term step (i + 1) f (step i pop)).reproCount + 1⟩ := by
        simp only [simGo]
        rw [if_neg (show ¬ (pop.map fitF).any term = true by rw [hfalse]; simp)]
      have hterm2 : anyTerm fitF term (popRel step (i + 1) (step i pop) k) = true := hterm
      have hbefore2 : ∀ j, j < k →
          anyTerm fitF term (popRel step (i + 1) (step i pop) j) = false :=
        fun j hj => hbefore (j + 1) (by omega)
      obtain ⟨h1, h2, h3, h4, h5, h6, h7, h8, h9, h10⟩ :=
        ih (i + 1) f (step i pop) (by omega) hterm2 hbefore2
      rw [hrec]
      refine ⟨?_, ?_, ?_, ?_, ?_, ?_, ?_, ?_, ?_, ?_⟩
      · show (simGo fitF term step (i + 1) f (step i pop)).stopGen = i + (k + 1)
        rw [h1]; omega
      · show (simGo fitF term step (i + 1) f (step i pop)).reproCount + 1 = k + 1
        rw [h2]
      · show (listMax (pop.map fitF)
            :: (simGo fitF term step (i + 1) f (step i pop)).best).length = k + 1 + 1
        rw [List.length_cons, h3]
      · show (listMin (pop.map fitF)
            :: (simGo fitF term step (i + 1) f (step i pop)).worst).length = k + 1 + 1
        rw [List.length_cons, h4]
      · show (listAvg (pop.map fitF)
            :: (simGo fitF term step (i + 1) f (step i pop)).avg).length = k + 1 + 1
        rw [List.length_cons, h5]
      · show (pop.getD (argmaxIdx (pop.map fitF)) []
            :: (simGo fitF term step (i + 1) f (step i pop)).historic).length = k + 1 + 1
        rw [List.length_cons, h6]
      · show (listMax (pop.map fitF)
            :: (simGo fitF term step (i + 1) f (step i pop)).best).get? (k + 1)
            = some (listMax ((popRel step i pop (k + 1)).map fitF))
        rw [List.get?_cons_succ]
        exact h7
      · show (listMin (pop.map fitF)
            :: (simGo fitF term step (i + 1) f (step i pop)).worst).get? (k + 1)
            = some (listMin ((popRel step i pop (k + 1)).map fitF))
        rw [List.get?_cons_succ]
        exact h8
      · show (listAvg (pop.map fitF)
            :: (simGo fitF term step (i + 1) f (step i pop)).avg).get? (k + 1)
            = some (listAvg ((popRel step i pop (k + 1)).map fitF))
        rw [List.get?_cons_succ]
        exact h9
      · show (pop.getD (argmaxIdx (pop.map fitF)) []
            :: (simGo fitF term step (i + 1) f (step i pop)).historic).get? (k + 1)
            = some ((popRel step i pop (k + 1)).getD
                (argmaxIdx ((popRel step i pop (k + 1)).map fitF)) [])
        rw [List.get?_cons_succ]
        exact h10

/-- C1: if generation `k ≤ max_iter` (1-based) is the first whose fitness vector
satisfies the termination condition for at least one value, the simulation stops at
generation `k`: `stopGen = k`, reproduction ran exactly `k - 1` times (never after
the halting generation), all four metric series have length `k`, and the halting
generation's best, worst, average fitness and best individual are still recorded as
the `k`-th entries. -/
theorem simulate_halts_at_first_termination {α : Type} (fitF : List α → Int)
    (term : Int → Bool) (step : Nat → List (List α) → List (List α))
    (maxIter : Nat) (pop : List (List α)) (k : Nat)
    (hk1 : 1 ≤ k) (hk2 : k ≤ maxIter)
    (hterm : anyTerm fitF term (popAtGen step pop (k - 1)) = true)
    (hbefore : ∀ j, j < k - 1 → anyTerm fitF term (popAtGen step pop j) = false) :
    (simulate fitF term step maxIter pop).stopGen = k
    ∧ (simulate fitF term step maxIter pop).reproCount = k - 1
    ∧ (simulate fitF term step maxIter pop).best.length = k
    ∧ (simulate fitF term step maxIter pop).worst.length = k
    ∧ (simulate fitF term step maxIter pop).avg.length = k
    ∧ (simulate fitF term step maxIter pop).historic.length = k
    ∧ (simulate fitF term step maxIter pop).best.get? (k - 1)
        = some (listMax ((popAtGen step pop (k - 1)).map fitF))
    ∧ (simulate fitF term step maxIter pop).worst.get? (k - 1)
        = some (listMin ((popAtGen step pop (k - 1)).map fitF))
    ∧ (simulate fitF term step maxIter pop).avg.get? (k - 1)
        = some (listAvg ((popAtGen step pop (k - 1)).map fitF))
    ∧ (simulate fitF term step maxIter pop).historic.get? (k - 1)
        = some ((popAtGen step pop (k - 1)).getD
            (argmaxIdx ((popAtGen step pop (k - 1)).map fitF)) []) := by
  have hpr := popAtGen_eq_popRel step pop
  have hterm2 : anyTerm fitF term (popRel step 1 pop (k - 1)) = true := by
    rw [← hpr]; exact hterm
  have hbefore2 : ∀ j, j < k - 1 → anyTerm fitF term (popRel step 1 pop j) = false := by
    intro j hj
    rw [← hpr]
    exact hbefore j hj
  obtain ⟨h1, h2, h3, h4, h5, h6, h7, h8, h9, h10⟩ :=
    simGo_spec fitF term step (k - 1) 1 maxIter pop (by omega) hterm2 hbefore2
  unfold simulate
  rw [hpr (k - 1)]
  exact ⟨by rw [h1]; omega, h2, by rw [h3]; omega, by rw [h4]; omega,
    by rw [h5]; omega, by rw [h6]; omega, h7, h8, h9, h10⟩

/-- C1 witness: one individual `[1]`, fitness = length, termination at fitness 2,
reproduction prepends a gene to every individual; the first generation satisfying
the condition is generation 2 of at most 5. -/
theorem simulate_halts_at_first_termination_witness :
    (simulate (fun l => (l.length : Int)) (fun v => decide (2 ≤ v))
        (fun _ p => p.map (fun l => 1 :: l)) 5 [[1]]).stopGen = 2
    ∧ (simulate (fun l => (l.length : Int)) (fun v => decide (2 ≤ v))
        (fun _ p => p.map (fun l => 1 :: l)) 5 [[1]]).reproCount = 2 - 1
    ∧ (simulate (fun l => (l.length : Int)) (fun v => decide (2 ≤ v))
        (fun _ p => p.map (fun l => 1 :: l)) 5 [[1]]).best.length = 2
    ∧ (simulate (fun l => (l.length : Int)) (fun v => decide (2 ≤ v))
        (fun _ p => p.map (fun l => 1 :: l)) 5 [[1]]).worst.length = 2
    ∧ (simulate (fun l => (l.length : Int)) (fun v => decide (2 ≤ v))
        (fun _ p => p.map (fun l => 1 :: l)) 5 [[1]]).avg.length = 2
    ∧ (simulate (fun l => (l.length : Int)) (fun v => decide (2 ≤ v))
        (fun _ p => p.map (fun l => 1 :: l)) 5 [[1]]).historic.length = 2
    ∧ (simulate (fun l => (l.length : Int)) (fun v => decide (2 ≤ v))
        (fun _ p => p.map (fun l => 1 :: l)) 5 [[1]]).best.get? (2 - 1)
        = some (listMax ((popAtGen (fun _ p => p.map (fun l => 1 :: l)) [[1]] (2 - 1)).map
            (fun l => (l.length : Int))))
    ∧ (simulate (fun l => (l.length : Int)) (fun v => decide (2 ≤ v))
        (fun _ p => p.map (fun l => 1 :: l)) 5 [[1]]).worst.get? (2 - 1)
        = some (listMin ((popAtGen (fun _ p => p.map (fun l => 1 :: l)) [[1]] (2 - 1)).map
            (fun l => (l.length : Int))))
    ∧ (simulate (fun l => (l.length : Int)) (fun v => decide (2 ≤ v))
        (fun _ p => p.map (fun l => 1 :: l)) 5 [[1]]).avg.get? (2 - 1)
        = some (listAvg ((popAtGen (fun _ p => p.map (fun l => 1 :: l)) [[1]] (2 - 1)).map
            (fun l => (l.length : Int))))
    ∧ (simulate (fun l => (l.length : Int)) (fun v => decide (2 ≤ v))
        (fun _ p => p.map (fun l => 1 :: l)) 5 [[1]]).historic.get? (2 - 1)
        = some ((popAtGen (fun _ p => p.map (fun l => 1 :: l)) [[1]] (2 - 1)).getD
            (argmaxIdx ((popAtGen (fun _ p => p.map (fun l => 1 :: l)) [[1]] (2 - 1)).map
              (fun l => (l.length : Int)))) []) :=
  simulate_halts_at_first_termination (fun l => (l.length : Int))
    (fun v => decide (2 ≤ v)) (fun _ p => p.map (fun l => 1 :: l)) 5 [[1]] 2
    (by decide) (by decide) (by rfl)
    (by decide)
